import Mathlib

/-!
Verification of the geodesic computation kernel in `amstramdam/game/geo.py`.

Coordinates are modelled over the real numbers: a Python `PointLike` tuple
`(lon, lat)` becomes a pair `ℝ × ℝ`, and the `math`/`numpy` trigonometric
functions become their exact real counterparts from Mathlib.  `math.atan2`
is the argument of a complex number and `a % m` on floats is true modulo
(the remainder takes the sign of the divisor).
-/

open Real

noncomputable section

/-- Conversion `math.radians`: degrees to radians, `x * π / 180`. -/
def radians (x : ℝ) : ℝ := x * π / 180

/-- Conversion `math.degrees`: radians to degrees, `x * 180 / π`. -/
def degrees (x : ℝ) : ℝ := x * 180 / π

/-- Function `to_rad` from geo.py: unpack `(lon, lat)` and convert each component to radians. -/
def to_rad (p : ℝ × ℝ) : ℝ × ℝ := (radians p.1, radians p.2)

/-- Function `to_deg` from geo.py: unpack `(lam, phi)` and convert each component to degrees. -/
def to_deg (p : ℝ × ℝ) : ℝ × ℝ := (degrees p.1, degrees p.2)

/-- Python float modulo `a % m`: `a - m * ⌊a / m⌋`, the remainder with the divisor's sign. -/
def pymod (a m : ℝ) : ℝ := a - m * ⌊a / m⌋

/-- Function `normalize_angle(a)` from geo.py: `a % (2 * math.pi)`. -/
def normalize_angle (a : ℝ) : ℝ := pymod a (2 * π)

/-- Python `math.atan2(y, x)`: the argument of the complex number `x + i·y`, valued in
`(-π, π]`, with `atan2(0, 0) = 0`. -/
def atan2 (y x : ℝ) : ℝ := Complex.arg ⟨x, y⟩

/-- Function `angle(start, point)` from geo.py: initial great-circle bearing from `start`
to `point`, normalized into `[0, 2π)`. -/
def angle (start p : ℝ × ℝ) : ℝ :=
  let lam1 := (to_rad start).1
  let phi1 := (to_rad start).2
  let lam2 := (to_rad p).1
  let phi2 := (to_rad p).2
  let y := sin (lam2 - lam1) * cos phi2
  let x := cos phi1 * sin phi2 - sin phi1 * cos phi2 * cos (lam2 - lam1)
  normalize_angle (atan2 y x)

/-- Function `move(start, theta, distance)` from geo.py: spherical direct geodesic with
Earth radius 6371 km, returning the destination as `(lon, lat)` in degrees.  `math.asin`
is modelled by `arcsin`; its argument always lies in `[-1, 1]` (Cauchy-Schwarz), so the
two agree on every input reachable here. -/
def move (start : ℝ × ℝ) (theta d : ℝ) : ℝ × ℝ :=
  let lam := (to_rad start).1
  let phi := (to_rad start).2
  let delta := d / 6371
  let phi2 := arcsin (sin phi * cos delta + cos phi * sin delta * cos theta)
  let lam2 := lam + atan2 (sin delta * sin theta * cos phi) (cos delta - sin phi * sin phi2)
  to_deg (lam2, phi2)

/-- Function `move_given_angle(theta, start, distance, verbose=False)` from geo.py: the same
formulas as `move`; the `verbose` flag only prints and does not affect the returned value. -/
def move_given_angle (theta : ℝ) (start : ℝ × ℝ) (d : ℝ) (verbose : Bool := false) : ℝ × ℝ :=
  let lam := (to_rad start).1
  let phi := (to_rad start).2
  let delta := d / 6371
  let phi2 := arcsin (sin phi * cos delta + cos phi * sin delta * cos theta)
  let lam2 := lam + atan2 (sin delta * sin theta * cos phi) (cos delta - sin phi * sin phi2)
  to_deg (lam2, phi2)

/-- Python `ValueError`, as raised by tuple unpacking of a wrongly-shaped array. -/
inductive PyValueErr where
  | notEnoughValuesToUnpack
deriving DecidableEq

/-- Function `vectorized_distance(ref, points)` from geo.py: haversine distances (Earth
radius 6371 km) from `ref` to every point, as whole-array operations.  For a nonempty
list of pairs `np.deg2rad(points)` has shape `(n, 2)` and `.transpose()` unpacks into the
`lons` and `lats` columns; for the empty list `np.deg2rad([])` has shape `(0,)`, and
unpacking its transpose into the two targets `lons, lats` raises `ValueError`. -/
def vectorized_distance (ref : ℝ × ℝ) (points : List (ℝ × ℝ)) :
    Except PyValueErr (List ℝ) :=
  match points with
  | [] => Except.error PyValueErr.notEnoughValuesToUnpack
  | p :: ps =>
    let lons := (p :: ps).map fun q => radians q.1
    let lats := (p :: ps).map fun q => radians q.2
    let lon := (to_rad ref).1
    let lat := (to_rad ref).2
    let a := List.zipWith
      (fun lo la => sin ((la - lat) / 2) ^ 2 + cos lat * cos la * sin ((lo - lon) / 2) ^ 2)
      lons lats
    Except.ok (a.map fun t => 6371 * 2 * atan2 (sqrt t) (sqrt (1 - t)))

/-- Scalar haversine distance with Earth radius 6371 km: the formula that
`vectorized_distance` applies, evaluated at a single point. -/
def haversine_km (ref p : ℝ × ℝ) : ℝ :=
  let lon := (to_rad ref).1
  let lat := (to_rad ref).2
  let a := sin ((radians p.2 - lat) / 2) ^ 2
    + cos lat * cos (radians p.2) * sin ((radians p.1 - lon) / 2) ^ 2
  6371 * 2 * atan2 (sqrt a) (sqrt (1 - a))

/-- Function `vectorized_circle(center, dist, n_points=None)` from geo.py.  When `n_points`
is omitted it is `math.floor` of the circumference `2π·dist` divided by the 1 km spacing
`every`.  `np.arange(0, n)` is the list `[0, …, n-1]` (empty when `n ≤ 0`) and the
whole-array operations act elementwise. -/
def vectorized_circle (center : ℝ × ℝ) (dist : ℝ) (nPoints : Option ℤ) : List (ℝ × ℝ) :=
  let n : ℤ :=
    match nPoints with
    | none => ⌊2 * π * dist / 1⌋
    | some m => m
  let lam := (to_rad center).1
  let phi := (to_rad center).2
  let delta := dist / 6371
  (List.range n.toNat).map fun (k : ℕ) =>
    let theta := 2 * π * (k : ℝ) / (n : ℝ)
    let phi2 := arcsin (sin phi * cos delta + cos phi * sin delta * cos theta)
    let lam2 := lam + atan2 (sin delta * sin theta * cos phi) (cos delta - sin phi * sin phi2)
    (degrees lam2, degrees phi2)

/-- Modelled from the spec: the body of `distance` calls `geopy.distance.distance`, an
external library whose code is not part of this repository.  The spec describes `distance`
as the `great-circle or ellipsoidal distance between two points`; it is modelled here as
the great-circle distance on the 6371 km sphere, in haversine form. -/
def geodesic_km (p1 p2 : ℝ × ℝ) : ℝ :=
  let lam1 := (to_rad p1).1
  let phi1 := (to_rad p1).2
  let lam2 := (to_rad p2).1
  let phi2 := (to_rad p2).2
  let a := sin ((phi2 - phi1) / 2) ^ 2 + cos phi1 * cos phi2 * sin ((lam2 - lam1) / 2) ^ 2
  6371 * 2 * atan2 (sqrt a) (sqrt (1 - a))

/-- Function `distance(pointA, pointB)` from geo.py: delegates to the external geodesic
distance on the two `(lon, lat)` pairs. -/
def distance (pointA pointB : ℝ × ℝ) : ℝ := geodesic_km pointA pointB

/-- Python object of class `Point` from geo.py: the stored `(lon, lat)` fields together
with the object's identity `addr` (two separately constructed objects have distinct
addresses). -/
structure PyPoint where
  addr : ℕ
  lon : ℝ
  lat : ℝ

/-- Python `==` on `Point`: the class defines `__hash__` but no `__eq__`, so `==` falls
back to `object` identity — two references compare equal exactly when they denote the
same object, i.e. the same record. -/
def pointPyEq (p q : PyPoint) : Prop := p = q

/-- Method `Point.__hash__` from geo.py: `hash(tuple(self))`, the interpreter's tuple-hash
function `h` applied to the pair `(lon, lat)`. -/
def pointHash (h : ℝ × ℝ → ℤ) (p : PyPoint) : ℤ := h (p.lon, p.lat)

/-- Failure class named by the spec for invalid coordinates. -/
inductive GeoFailure where
  | invalidCoordinate
deriving DecidableEq

/-- Method `Point.__init__(lon, lat)` from geo.py: assigns both fields and contains no
validation; the `Except` result records whether construction can fail. -/
def pointInit (addr : ℕ) (lon lat : ℝ) : Except GeoFailure PyPoint :=
  Except.ok ⟨addr, lon, lat⟩

/-- Python exception classes raised by indexing. -/
inductive PyExc where
  | keyError
  | indexError
deriving DecidableEq

/-- Method `Point.__getitem__(item)` from geo.py: `lon` at 0, `lat` at 1, and
`KeyError` for every other integer index. -/
def getItem (p : PyPoint) (item : ℤ) : Except PyExc ℝ :=
  if item = 0 then Except.ok p.lon
  else if item = 1 then Except.ok p.lat
  else Except.error PyExc.keyError

/-! Helper lemmas about the embedded operations. -/

theorem pymod_eq_fract_mul {m : ℝ} (hm : m ≠ 0) (a : ℝ) :
    pymod a m = m * Int.fract (a / m) := by
  unfold pymod Int.fract
  field_simp

theorem radians_degrees (x : ℝ) : radians (degrees x) = x := by
  unfold radians degrees
  field_simp

theorem normalize_angle_nonneg (a : ℝ) : 0 ≤ normalize_angle a := by
  rw [normalize_angle, pymod_eq_fract_mul (ne_of_gt Real.two_pi_pos)]
  exact mul_nonneg Real.two_pi_pos.le (Int.fract_nonneg _)

theorem normalize_angle_lt_two_pi (a : ℝ) : normalize_angle a < 2 * π := by
  rw [normalize_angle, pymod_eq_fract_mul (ne_of_gt Real.two_pi_pos)]
  calc 2 * π * Int.fract (a / (2 * π)) < 2 * π * 1 :=
        (mul_lt_mul_left Real.two_pi_pos).mpr (Int.fract_lt_one _)
    _ = 2 * π := mul_one _

theorem normalize_angle_add_two_pi (a : ℝ) :
    normalize_angle (a + 2 * π) = normalize_angle a := by
  rw [normalize_angle, normalize_angle, pymod_eq_fract_mul (ne_of_gt Real.two_pi_pos),
    pymod_eq_fract_mul (ne_of_gt Real.two_pi_pos)]
  congr 1
  rw [show (a + 2 * π) / (2 * π) = a / (2 * π) + 1 by
    field_simp]
  exact Int.fract_add_one _

theorem normalize_angle_sub_two_pi (a : ℝ) :
    normalize_angle (a - 2 * π) = normalize_angle a := by
  have h := normalize_angle_add_two_pi (a - 2 * π)
  rw [sub_add_cancel] at h
  exact h.symm

theorem normalize_angle_eq_self {a : ℝ} (h0 : 0 ≤ a) (h1 : a < 2 * π) :
    normalize_angle a = a := by
  rw [normalize_angle, pymod]
  have hfl : ⌊a / (2 * π)⌋ = 0 := by
    apply Int.floor_eq_zero_iff.mpr
    constructor
    · exact div_nonneg h0 Real.two_pi_pos.le
    · rw [div_lt_one Real.two_pi_pos]
      exact h1
  rw [hfl]
  push_cast
  ring

theorem atan2_sin_cos {r u : ℝ} (hr : 0 < r) (h1 : -π < u) (h2 : u ≤ π) :
    atan2 (r * sin u) (r * cos u) = u := by
  unfold atan2
  have hmk : (⟨r * cos u, r * sin u⟩ : ℂ) =
      (r : ℂ) * (Complex.cos u + Complex.sin u * Complex.I) := by
    rw [← Complex.ofReal_cos, ← Complex.ofReal_sin]
    simp [Complex.ext_iff, Complex.cos_ofReal_re, Complex.sin_ofReal_re]
  rw [hmk, Complex.arg_real_mul _ hr]
  exact Complex.arg_cos_add_sin_mul_I ⟨h1, h2⟩

theorem atan2_sin_cos' {u : ℝ} (h1 : -π < u) (h2 : u ≤ π) :
    atan2 (sin u) (cos u) = u := by
  have h := atan2_sin_cos one_pos h1 h2
  rw [one_mul, one_mul] at h
  exact h

theorem atan2_zero_nonneg {x : ℝ} (hx : 0 ≤ x) : atan2 0 x = 0 := by
  unfold atan2
  rw [show (⟨x, 0⟩ : ℂ) = (x : ℂ) by simp [Complex.ext_iff]]
  exact Complex.arg_ofReal_of_nonneg hx

theorem atan2_zero_neg {x : ℝ} (hx : x < 0) : atan2 0 x = π := by
  unfold atan2
  rw [show (⟨x, 0⟩ : ℂ) = (x : ℂ) by simp [Complex.ext_iff]]
  exact Complex.arg_ofReal_of_neg hx

theorem normalize_atan2_sin_cos {r u : ℝ} (hr : 0 < r) (h0 : 0 ≤ u) (h1 : u < 2 * π) :
    normalize_angle (atan2 (r * sin u) (r * cos u)) = u := by
  rcases le_or_lt u π with hle | hgt
  · rw [atan2_sin_cos hr (lt_of_lt_of_le (neg_neg_iff_pos.mpr Real.pi_pos) h0) hle]
    exact normalize_angle_eq_self h0 h1
  · have hs : sin u = sin (u - 2 * π) := (Real.sin_sub_two_pi u).symm
    have hc : cos u = cos (u - 2 * π) := (Real.cos_sub_two_pi u).symm
    rw [hs, hc, atan2_sin_cos hr (by linarith) (by linarith),
      normalize_angle_sub_two_pi]
    exact normalize_angle_eq_self h0 h1

theorem sin_sq_half_eq (x : ℝ) : sin (x / 2) ^ 2 = (1 - cos x) / 2 := by
  have h := Real.sin_sq_eq_half_sub (x / 2)
  rw [show 2 * (x / 2) = x by ring] at h
  rw [h]
  ring

theorem sin_atan2 (y x : ℝ) : sin (atan2 y x) = y / sqrt (x ^ 2 + y ^ 2) := by
  unfold atan2
  rw [Complex.sin_arg, Complex.abs_apply, Complex.normSq_mk]
  norm_num [sq]

theorem cos_atan2 {y x : ℝ} (h : x ^ 2 + y ^ 2 ≠ 0) :
    cos (atan2 y x) = x / sqrt (x ^ 2 + y ^ 2) := by
  unfold atan2
  have hz : (⟨x, y⟩ : ℂ) ≠ 0 := by
    intro h0
    apply h
    have hre := congrArg Complex.re h0
    have him := congrArg Complex.im h0
    simp at hre him
    rw [hre, him]
    ring
  rw [Complex.cos_arg hz, Complex.abs_apply, Complex.normSq_mk]
  norm_num [sq]

theorem sin_sq_swap (x y : ℝ) : sin ((x - y) / 2) ^ 2 = sin ((y - x) / 2) ^ 2 := by
  rw [show (y - x) / 2 = -((x - y) / 2) by ring, Real.sin_neg]
  ring

/-! Claim theorems. -/

/-- C3: `normalize_angle` maps every real into `[0, 2π)`, is invariant under adding `2π`,
and reduces negative inputs by true modulo: `normalize_angle (-π/2) = 3π/2`. -/
theorem normalize_angle_spec (theta : ℝ) :
    0 ≤ normalize_angle theta ∧ normalize_angle theta < 2 * π ∧
    normalize_angle (theta + 2 * π) = normalize_angle theta ∧
    normalize_angle (-(π / 2)) = 3 * π / 2 := by
  refine ⟨normalize_angle_nonneg _, normalize_angle_lt_two_pi _,
    normalize_angle_add_two_pi _, ?_⟩
  rw [normalize_angle, pymod,
    show -(π / 2) / (2 * π) = -(1 / 4 : ℝ) by
      rw [div_eq_iff (ne_of_gt Real.two_pi_pos)]; ring,
    show ⌊(-(1 / 4) : ℝ)⌋ = -1 by
      apply Int.floor_eq_iff.mpr; constructor <;> norm_num]
  push_cast
  ring

/-- C4: the bearing operation applied to a coincident pair returns exactly 0. -/
theorem angle_self_eq_zero (p : ℝ × ℝ) : angle p p = 0 := by
  have h0 : (to_rad p).1 - (to_rad p).1 = 0 := sub_self _
  simp only [angle, h0, Real.sin_zero, Real.cos_zero, zero_mul, mul_one]
  rw [show cos (to_rad p).2 * sin (to_rad p).2 - sin (to_rad p).2 * cos (to_rad p).2 = 0 by
    ring]
  rw [atan2_zero_nonneg le_rfl]
  exact normalize_angle_eq_self le_rfl Real.two_pi_pos

/-- C9: `Point.__getitem__` returns `lon` at index 0 and `lat` at index 1, and raises
`KeyError` (not `IndexError`) at every other integer index. -/
theorem getItem_spec (p : PyPoint) (item : ℤ) :
    getItem p 0 = Except.ok p.lon ∧ getItem p 1 = Except.ok p.lat ∧
    (item ≠ 0 → item ≠ 1 → getItem p item = Except.error PyExc.keyError) := by
  refine ⟨rfl, ?_, fun h0 h1 => ?_⟩
  · norm_num [getItem]
  · simp [getItem, h0, h1]

/-- Witness for C9 at the concrete out-of-range index 2. -/
theorem getItem_spec_witness :
    getItem ⟨0, 5, 7⟩ 2 = Except.error PyExc.keyError :=
  (getItem_spec ⟨0, 5, 7⟩ 2).2.2 (by decide) (by decide)

/-- C1 fails: two separately constructed `Point` objects carrying identical `(lon, lat)`
fields are not equal under Python `==`, because the class defines no `__eq__` and inherits
identity-based equality from `object`. -/
theorem point_eq_not_by_fields :
    (⟨0, 2, 3⟩ : PyPoint).lon = (⟨1, 2, 3⟩ : PyPoint).lon ∧
    (⟨0, 2, 3⟩ : PyPoint).lat = (⟨1, 2, 3⟩ : PyPoint).lat ∧
    ¬ pointPyEq ⟨0, 2, 3⟩ ⟨1, 2, 3⟩ := by
  refine ⟨rfl, rfl, fun h => ?_⟩
  have h' : (⟨0, 2, 3⟩ : PyPoint) = ⟨1, 2, 3⟩ := h
  exact absurd (congrArg PyPoint.addr h') (by decide)

/-- C1 amended: `==` on `Point` is object identity, so equal objects do have equal fields,
and `__hash__` goes by exact field value: any two `Point`s with the same `(lon, lat)`
fields have equal hashes. -/
theorem point_identity_eq_and_field_hash (h : ℝ × ℝ → ℤ) (p q : PyPoint) :
    (pointPyEq p q → p.lon = q.lon ∧ p.lat = q.lat) ∧
    (p.lon = q.lon → p.lat = q.lat → pointHash h p = pointHash h q) := by
  constructor
  · intro he
    have he' : p = q := he
    exact ⟨congrArg PyPoint.lon he', congrArg PyPoint.lat he'⟩
  · intro h1 h2
    unfold pointHash
    rw [h1, h2]

/-- Witness for the amended C1 at two concrete objects with equal fields. -/
theorem point_identity_eq_and_field_hash_witness :
    pointHash (fun _ => 37) ⟨0, 2, 3⟩ = pointHash (fun _ => 37) ⟨1, 2, 3⟩ :=
  (point_identity_eq_and_field_hash (fun _ => 37) ⟨0, 2, 3⟩ ⟨1, 2, 3⟩).2 rfl rfl

/-- C2 fails: constructing a `Point` from the out-of-range coordinates (1000, 1000)
succeeds; `__init__` validates nothing and never raises `InvalidCoordinate`. -/
theorem pointInit_out_of_range_ok :
    (180 : ℝ) < 1000 ∧ (90 : ℝ) < 1000 ∧
    pointInit 0 1000 1000 = Except.ok ⟨0, 1000, 1000⟩ :=
  ⟨by norm_num, by norm_num, rfl⟩

/-- C2 amended: `Point` construction never fails — for every coordinate pair, in range or
not, `__init__` returns the point with exactly the given fields (and every kernel
operation is a total function of such points). -/
theorem pointInit_total (addr : ℕ) (lon lat : ℝ) :
    pointInit addr lon lat = Except.ok ⟨addr, lon, lat⟩ := rfl

/-- C10: `move` and `move_given_angle` (with `verbose` at its default) compute the same
destination point for every start, bearing and distance. -/
theorem move_eq_move_given_angle (theta : ℝ) (start : ℝ × ℝ) (d : ℝ) :
    move_given_angle theta start d = move start theta d := rfl

/-- C5: the single-pair distance is symmetric and vanishes on a coincident pair. -/
theorem distance_symm_and_self (a b : ℝ × ℝ) :
    distance a b = distance b a ∧ distance a a = 0 := by
  constructor
  · simp only [distance, geodesic_km]
    rw [sin_sq_swap ((to_rad b).2) ((to_rad a).2), sin_sq_swap ((to_rad b).1) ((to_rad a).1)]
    ring_nf
  · simp only [distance, geodesic_km, sub_self, zero_div, Real.sin_zero]
    norm_num
    exact atan2_zero_nonneg (by norm_num)

theorem vect_arrays_eq (ref : ℝ × ℝ) (points : List (ℝ × ℝ)) :
    (List.zipWith
        (fun lo la => sin ((la - (to_rad ref).2) / 2) ^ 2
          + cos (to_rad ref).2 * cos la * sin ((lo - (to_rad ref).1) / 2) ^ 2)
        (points.map fun q => radians q.1) (points.map fun q => radians q.2)).map
      (fun t => 6371 * 2 * atan2 (sqrt t) (sqrt (1 - t)))
    = points.map (haversine_km ref) := by
  induction points with
  | nil => rfl
  | cons p ps ih =>
    simp only [List.map_cons, List.zipWith_cons_cons] at ih ⊢
    exact congrArg₂ List.cons rfl ih

/-- C8 fails on the empty sequence: the code raises `ValueError` (unpacking the transpose
of the shape-`(0,)` array `np.deg2rad([])`) instead of returning an empty sequence. -/
theorem vectorized_distance_empty_raises :
    vectorized_distance ((0 : ℝ), (0 : ℝ)) []
      = Except.error PyValueErr.notEnoughValuesToUnpack := rfl

/-- C8 amended: for every nonempty sequence of points, `vectorized_distance` returns one
entry per input point, in the input order, each entry the haversine (Earth radius 6371 km)
distance from the reference point; on the empty sequence it raises `ValueError`. -/
theorem vectorized_distance_spec (ref : ℝ × ℝ) (points : List (ℝ × ℝ)) :
    (points ≠ [] →
      vectorized_distance ref points = Except.ok (points.map (haversine_km ref))) ∧
    vectorized_distance ref [] = Except.error PyValueErr.notEnoughValuesToUnpack := by
  constructor
  · intro hne
    obtain ⟨p, ps, rfl⟩ := List.exists_cons_of_ne_nil hne
    simp only [vectorized_distance]
    exact congrArg Except.ok (vect_arrays_eq ref (p :: ps))
  · rfl

/-- Witness for the amended C8 at a concrete one-point sequence. -/
theorem vectorized_distance_spec_witness :
    vectorized_distance ((0 : ℝ), (0 : ℝ)) [((3 : ℝ), (4 : ℝ))]
      = Except.ok ([((3 : ℝ), (4 : ℝ))].map (haversine_km ((0 : ℝ), (0 : ℝ)))) :=
  (vectorized_distance_spec ((0 : ℝ), (0 : ℝ)) [((3 : ℝ), (4 : ℝ))]).1 (by simp)

/-- C7: with `n_points` omitted, `vectorized_circle` uses `⌊2π·radius/1⌋` points; with `n`
points it returns exactly the `n`-element list whose entry `k` is `move center (2πk/n)
radius`, bearings increasing from 0 at index 0. -/
theorem vectorized_circle_spec (center : ℝ × ℝ) (dist : ℝ) (n : ℕ) :
    vectorized_circle center dist none =
      vectorized_circle center dist (some ⌊2 * π * dist / 1⌋) ∧
    vectorized_circle center dist (some (n : ℤ)) =
      (List.range n).map (fun (k : ℕ) => move center (2 * π * (k : ℝ) / (n : ℝ)) dist) ∧
    (vectorized_circle center dist (some (n : ℤ))).length = n := by
  have hmap : vectorized_circle center dist (some (n : ℤ)) =
      (List.range n).map (fun (k : ℕ) => move center (2 * π * (k : ℝ) / (n : ℝ)) dist) := by
    have hrange : ((n : ℤ)).toNat = n := Int.toNat_natCast n
    simp only [vectorized_circle, move, to_deg, hrange]
    refine List.map_congr_left fun k _ => ?_
    norm_num [Int.cast_natCast]
  refine ⟨rfl, hmap, ?_⟩
  rw [hmap, List.length_map, List.length_range]

/-! Infrastructure for the direct-geodesic round trip. -/

theorem direct_identity (x y z : ℝ) :
    (sin x * cos y + cos x * sin y * cos z) ^ 2
      + (cos x * cos y - sin x * sin y * cos z) ^ 2
      + sin y ^ 2 * sin z ^ 2 = 1 := by
  linear_combination (cos y ^ 2 + sin y ^ 2 * cos z ^ 2) * sin_sq_add_cos_sq x
    + sin_sq_add_cos_sq y + sin y ^ 2 * sin_sq_add_cos_sq z

theorem direct_arg_abs_le (x y z : ℝ) : |sin x * cos y + cos x * sin y * cos z| ≤ 1 := by
  have h := direct_identity x y z
  refine (sq_le_one_iff_abs_le_one _).mp ?_
  nlinarith [sq_nonneg (cos x * cos y - sin x * sin y * cos z), sq_nonneg (sin y * sin z)]

theorem atan2_zero_zero : atan2 0 0 = 0 := by
  unfold atan2
  rw [show (⟨(0 : ℝ), (0 : ℝ)⟩ : ℂ) = 0 by simp [Complex.ext_iff]]
  exact Complex.arg_zero

theorem move_eq (lon lat b d : ℝ) :
    move (lon, lat) b d =
      (degrees (radians lon +
        atan2 (sin (d / 6371) * sin b * cos (radians lat))
          (cos (d / 6371) - sin (radians lat) *
            (sin (radians lat) * cos (d / 6371) + cos (radians lat) * sin (d / 6371) * cos b))),
       degrees (arcsin
         (sin (radians lat) * cos (d / 6371) + cos (radians lat) * sin (d / 6371) * cos b))) := by
  have h1 := abs_le.mp (direct_arg_abs_le (radians lat) (d / 6371) b)
  simp only [move, to_rad, to_deg]
  rw [Real.sin_arcsin h1.1 h1.2]

theorem dist_tail {u : ℝ} (h0 : 0 < u) (h1 : u < π) :
    6371 * 2 * atan2 (sqrt ((1 - cos u) / 2)) (sqrt (1 - (1 - cos u) / 2)) = 6371 * u := by
  have hs : sqrt ((1 - cos u) / 2) = sin (u / 2) := by
    rw [← sin_sq_half_eq, Real.sqrt_sq
      (Real.sin_nonneg_of_nonneg_of_le_pi (by linarith) (by linarith))]
  have hc : sqrt (1 - (1 - cos u) / 2) = cos (u / 2) := by
    rw [← sin_sq_half_eq, show 1 - sin (u / 2) ^ 2 = cos (u / 2) ^ 2 by
        linear_combination (-1 : ℝ) * sin_sq_add_cos_sq (u / 2),
      Real.sqrt_sq (le_of_lt (Real.cos_pos_of_mem_Ioo
        ⟨by linarith [Real.pi_pos], by linarith⟩))]
  rw [hs, hc, atan2_sin_cos' (by linarith [Real.pi_pos]) (by linarith)]
  ring

set_option maxHeartbeats 1600000 in
theorem bearing_dist_core (φ δ b : ℝ)
    (hφ1 : -(π / 2) < φ) (hφ2 : φ < π / 2)
    (hb0 : 0 ≤ b) (hb1 : b < 2 * π)
    (hδ0 : 0 < δ) (hδ1 : δ < π) :
    normalize_angle (atan2
        (sin (atan2 (sin δ * sin b * cos φ)
            (cos δ - sin φ * (sin φ * cos δ + cos φ * sin δ * cos b))) *
          cos (arcsin (sin φ * cos δ + cos φ * sin δ * cos b)))
        (cos φ * sin (arcsin (sin φ * cos δ + cos φ * sin δ * cos b)) -
          sin φ * cos (arcsin (sin φ * cos δ + cos φ * sin δ * cos b)) *
            cos (atan2 (sin δ * sin b * cos φ)
              (cos δ - sin φ * (sin φ * cos δ + cos φ * sin δ * cos b))))) = b ∧
    sin ((arcsin (sin φ * cos δ + cos φ * sin δ * cos b) - φ) / 2) ^ 2 +
        cos φ * cos (arcsin (sin φ * cos δ + cos φ * sin δ * cos b)) *
          sin (atan2 (sin δ * sin b * cos φ)
            (cos δ - sin φ * (sin φ * cos δ + cos φ * sin δ * cos b)) / 2) ^ 2
      = (1 - cos δ) / 2 := by
  have hπ := Real.pi_pos
  have hcosφ : 0 < cos φ := Real.cos_pos_of_mem_Ioo ⟨hφ1, hφ2⟩
  have hsinδ : 0 < sin δ := Real.sin_pos_of_pos_of_lt_pi hδ0 hδ1
  set A := sin φ * cos δ + cos φ * sin δ * cos b with hA
  set Y := sin δ * sin b * cos φ with hY
  set X := cos δ - sin φ * A with hX
  set φ2 := arcsin A with hφ2d
  set Δ := atan2 Y X with hΔd
  clear_value Δ φ2 X Y A
  have habs : |A| ≤ 1 := by rw [hA]; exact direct_arg_abs_le φ δ b
  obtain ⟨hA2, hA1⟩ := abs_le.mp habs
  have hsinφ2 : sin φ2 = A := by rw [hφ2d]; exact Real.sin_arcsin hA2 hA1
  have hcosφ2nn : 0 ≤ cos φ2 := by rw [hφ2d]; exact Real.cos_arcsin_nonneg A
  have h1A : 0 ≤ 1 - A ^ 2 := by nlinarith [sq_abs A, abs_nonneg A]
  have hsq : cos φ2 ^ 2 = 1 - A ^ 2 := by
    rw [hφ2d, Real.cos_arcsin]
    exact Real.sq_sqrt h1A
  have hid : A ^ 2 + (cos φ * cos δ - sin φ * sin δ * cos b) ^ 2
      + sin δ ^ 2 * sin b ^ 2 = 1 := by
    rw [hA]; exact direct_identity φ δ b
  have hXB : X = cos φ * (cos φ * cos δ - sin φ * sin δ * cos b) := by
    rw [hX, hA]
    linear_combination (-(cos δ)) * sin_sq_add_cos_sq φ
  have hXY : X ^ 2 + Y ^ 2 = (cos φ * cos φ2) ^ 2 := by
    have hc2 : (cos φ * cos φ2) ^ 2 = cos φ ^ 2 * (1 - A ^ 2) := by
      rw [mul_pow, hsq]
    rw [hXB, hY, hc2]
    linear_combination (cos φ ^ 2) * hid
  have hsqrtXY : sqrt (X ^ 2 + Y ^ 2) = cos φ * cos φ2 := by
    rw [hXY]
    exact Real.sqrt_sq (mul_nonneg hcosφ.le hcosφ2nn)
  have hsinΔ : sin Δ = Y / (cos φ * cos φ2) := by
    rw [hΔd, sin_atan2, hsqrtXY]
  rcases lt_or_eq_of_le hcosφ2nn with hpos | hzero
  · -- destination latitude away from the poles
    have hne : X ^ 2 + Y ^ 2 ≠ 0 := by
      rw [hXY]
      exact pow_ne_zero 2 (ne_of_gt (mul_pos hcosφ hpos))
    have hcosΔm : cos Δ * (cos φ * cos φ2) = X := by
      rw [hΔd, cos_atan2 hne, hsqrtXY]
      exact div_mul_cancel₀ X (ne_of_gt (mul_pos hcosφ hpos))
    have hy : sin Δ * cos φ2 = sin δ * sin b := by
      rw [hsinΔ, hY]
      field_simp
      ring
    have hx : cos φ * sin φ2 - sin φ * cos φ2 * cos Δ = sin δ * cos b := by
      have hmul : cos φ * (cos φ * sin φ2 - sin φ * cos φ2 * cos Δ)
          = cos φ * (sin δ * cos b) := by
        calc cos φ * (cos φ * sin φ2 - sin φ * cos φ2 * cos Δ)
            = cos φ ^ 2 * sin φ2 - sin φ * (cos Δ * (cos φ * cos φ2)) := by ring
          _ = cos φ ^ 2 * A - sin φ * X := by rw [hsinφ2, hcosΔm]
          _ = cos φ * (sin δ * cos b) := by
              rw [hX, hA]
              linear_combination (sin φ * cos δ + cos φ * sin δ * cos b)
                * sin_sq_add_cos_sq φ
      exact mul_left_cancel₀ (ne_of_gt hcosφ) hmul
    constructor
    · rw [hy, hx]
      exact normalize_atan2_sin_cos hsinδ hb0 hb1
    · rw [sin_sq_half_eq (φ2 - φ), sin_sq_half_eq Δ, Real.cos_sub, hsinφ2]
      have hXv : cos Δ * (cos φ * cos φ2) = cos δ - sin φ * A := by rw [hcosΔm, hX]
      linear_combination (-(1 : ℝ) / 2) * hXv
  · -- destination exactly at a pole
    have h0 : 1 - A ^ 2 = 0 := by
      rw [← hsq, ← hzero]
      norm_num
    have hcases : A = 1 ∨ A = -1 := by
      have hfac : (A - 1) * (A + 1) = 0 := by linear_combination (-1 : ℝ) * h0
      rcases mul_eq_zero.mp hfac with h | h
      · left; linarith
      · right; linarith
    rcases hcases with hA1e | hA1e
    · -- north pole: forces bearing 0
      have hAexpr : sin φ * cos δ + cos φ * sin δ * cos b = 1 := by rw [← hA]; exact hA1e
      have hsle : sin φ * cos δ + cos φ * sin δ ≤ 1 := by
        have h := Real.sin_le_one (φ + δ)
        rw [Real.sin_add] at h
        exact h
      have hcb : cos b = 1 :=
        le_antisymm (Real.cos_le_one b) (by nlinarith [mul_pos hcosφ hsinδ])
      have hb : b = 0 :=
        (Real.cos_eq_one_iff_of_lt_of_lt (by linarith) (by linarith)).mp hcb
      have hsin1 : sin (φ + δ) = 1 := by
        rw [Real.sin_add]
        rw [hcb] at hAexpr
        linear_combination hAexpr
      have hsum : φ + δ = π / 2 := by
        obtain ⟨k, hk⟩ := Real.sin_eq_one_iff.mp hsin1
        have hk1 : (k : ℝ) < 1 := by nlinarith [hk, hφ2, hδ1, hπ]
        have hk2 : (-1 : ℝ) < (k : ℝ) := by nlinarith [hk, hφ1, hδ0, hπ]
        have hk0 : k = 0 := by
          have a1 : k < 1 := by exact_mod_cast hk1
          have a2 : -1 < k := by exact_mod_cast hk2
          omega
        rw [hk0] at hk
        push_cast at hk
        linarith
      have hφ2v : φ2 = π / 2 := by rw [hφ2d, hA1e, Real.arcsin_one]
      constructor
      · rw [hφ2v, hb, Real.cos_pi_div_two, Real.sin_pi_div_two,
          show sin Δ * 0 = 0 by ring,
          show cos φ * 1 - sin φ * 0 * cos Δ = cos φ by ring,
          atan2_zero_nonneg hcosφ.le]
        exact normalize_angle_eq_self le_rfl Real.two_pi_pos
      · rw [hφ2v, Real.cos_pi_div_two,
          show cos φ * 0 * sin (Δ / 2) ^ 2 = 0 by ring, add_zero,
          show π / 2 - φ = δ by linarith, sin_sq_half_eq]
    · -- south pole: forces bearing π
      have hAexpr : sin φ * cos δ + cos φ * sin δ * cos b = -1 := by rw [← hA]; exact hA1e
      have hsge : -1 ≤ sin φ * cos δ - cos φ * sin δ := by
        have h := Real.neg_one_le_sin (φ - δ)
        rw [Real.sin_sub] at h
        exact h
      have hcb : cos b = -1 :=
        le_antisymm (by nlinarith [mul_pos hcosφ hsinδ]) (Real.neg_one_le_cos b)
      have hb : b = π := by
        obtain ⟨k, hk⟩ := Real.cos_eq_neg_one_iff.mp hcb
        have hk1 : (k : ℝ) < 1 := by nlinarith [hk, hb1, hπ]
        have hk2 : (-1 : ℝ) < (k : ℝ) := by nlinarith [hk, hb0, hπ]
        have hk0 : k = 0 := by
          have a1 : k < 1 := by exact_mod_cast hk1
          have a2 : -1 < k := by exact_mod_cast hk2
          omega
        rw [hk0] at hk
        push_cast at hk
        linarith
      have hsin1 : sin (δ - φ) = 1 := by
        rw [Real.sin_sub]
        rw [hcb] at hAexpr
        linear_combination (-1 : ℝ) * hAexpr
      have hdiff : δ - φ = π / 2 := by
        obtain ⟨k, hk⟩ := Real.sin_eq_one_iff.mp hsin1
        have hk1 : (k : ℝ) < 1 := by nlinarith [hk, hδ1, hφ1, hπ]
        have hk2 : (-1 : ℝ) < (k : ℝ) := by nlinarith [hk, hδ0, hφ2, hπ]
        have hk0 : k = 0 := by
          have a1 : k < 1 := by exact_mod_cast hk1
          have a2 : -1 < k := by exact_mod_cast hk2
          omega
        rw [hk0] at hk
        push_cast at hk
        linarith
      have hφ2v : φ2 = -(π / 2) := by rw [hφ2d, hA1e, Real.arcsin_neg_one]
      constructor
      · rw [hφ2v, hb, Real.cos_neg, Real.sin_neg, Real.cos_pi_div_two, Real.sin_pi_div_two,
          show sin Δ * 0 = 0 by ring,
          show cos φ * -1 - sin φ * 0 * cos Δ = -cos φ by ring,
          atan2_zero_neg (neg_lt_zero.mpr hcosφ)]
        exact normalize_angle_eq_self hπ.le (by linarith)
      · rw [hφ2v, Real.cos_neg, Real.cos_pi_div_two,
          show cos φ * 0 * sin (Δ / 2) ^ 2 = 0 by ring, add_zero,
          show (-(π / 2) - φ) / 2 = -((π / 2 + φ) / 2) by ring, Real.sin_neg, neg_sq,
          show π / 2 + φ = δ by linarith, sin_sq_half_eq]

/-- C6 amended: for every start point strictly between the poles (latitude in `(-90, 90)`),
bearing `b ∈ [0, 2π)` and distance `d ∈ (0, 10000]` km, the bearing from start to
`move start b d` recovers `b` exactly, and the (great-circle-modelled) distance recovers
`d` exactly — in particular within the stated `1e-6` rad and `0.5%` tolerances. -/
theorem move_roundtrip (lon lat b d : ℝ)
    (hlat1 : -90 < lat) (hlat2 : lat < 90)
    (hb0 : 0 ≤ b) (hb1 : b < 2 * π)
    (hd0 : 0 < d) (hd1 : d ≤ 10000) :
    angle (lon, lat) (move (lon, lat) b d) = b ∧
    distance (lon, lat) (move (lon, lat) b d) = d := by
  have hπ := Real.pi_pos
  have hφ1 : -(π / 2) < radians lat := by
    unfold radians
    nlinarith [mul_pos (show (0 : ℝ) < lat + 90 by linarith) hπ]
  have hφ2r : radians lat < π / 2 := by
    unfold radians
    nlinarith [mul_pos (show (0 : ℝ) < 90 - lat by linarith) hπ]
  have hδ0 : 0 < d / 6371 := by positivity
  have hδ1 : d / 6371 < π := by linarith [Real.pi_gt_three]
  have hcore := bearing_dist_core (radians lat) (d / 6371) b hφ1 hφ2r hb0 hb1 hδ0 hδ1
  rw [move_eq]
  constructor
  · simp only [angle, to_rad, radians_degrees]
    rw [add_sub_cancel_left]
    exact hcore.1
  · simp only [distance, geodesic_km, to_rad, radians_degrees]
    rw [add_sub_cancel_left, hcore.2, dist_tail hδ0 hδ1]
    ring
/-- Witness for the amended C6 on the equator with bearing 0 and distance 100 km. -/
theorem move_roundtrip_witness :
    angle ((0 : ℝ), (0 : ℝ)) (move ((0 : ℝ), (0 : ℝ)) 0 100) = 0 ∧
    distance ((0 : ℝ), (0 : ℝ)) (move ((0 : ℝ), (0 : ℝ)) 0 100) = 100 :=
  move_roundtrip 0 0 0 100 (by norm_num) (by norm_num) le_rfl Real.two_pi_pos
    (by norm_num) (by norm_num)

/-- C6 fails at a pole start: from the north pole (latitude 90, a valid point) with
requested bearing `0` and distance 100 km, the recovered bearing is `π` — an error of
`π`, far beyond the claimed tolerance of about `1e-6` radians.  At this input the
double-precision program computes the same values: the longitude term is
`atan2(0.0, 0.0) = 0`, the destination is `(0.0, 89.1…)`, and `angle` returns `π`. -/
theorem move_roundtrip_fails_at_pole :
    angle ((0 : ℝ), (90 : ℝ)) (move ((0 : ℝ), (90 : ℝ)) 0 100) = π ∧
    1e-6 < |π - 0| := by
  have hπ := Real.pi_pos
  have hr90 : radians 90 = π / 2 := by unfold radians; ring
  have hδπ : (100 : ℝ) / 6371 < π / 2 := by linarith [Real.pi_gt_three]
  have hδ0 : (0 : ℝ) < 100 / 6371 := by norm_num
  have hsδ : 0 < sin ((100 : ℝ) / 6371) := Real.sin_pos_of_pos_of_lt_pi hδ0 (by linarith)
  have harc : arcsin (cos ((100 : ℝ) / 6371)) = π / 2 - 100 / 6371 := by
    rw [← Real.sin_pi_div_two_sub]
    exact Real.arcsin_sin (by linarith) (by linarith)
  have hmv : move ((0 : ℝ), (90 : ℝ)) 0 100
      = (degrees (radians 0), degrees (π / 2 - 100 / 6371)) := by
    rw [move_eq]
    refine congrArg₂ Prod.mk ?_ ?_
    · have hY0 : sin ((100 : ℝ) / 6371) * sin 0 * cos (radians 90) = 0 := by
        rw [Real.sin_zero]
        ring
      have hX0 : cos ((100 : ℝ) / 6371) - sin (radians 90) *
          (sin (radians 90) * cos ((100 : ℝ) / 6371)
            + cos (radians 90) * sin ((100 : ℝ) / 6371) * cos 0) = 0 := by
        rw [hr90, Real.sin_pi_div_two, Real.cos_pi_div_two]
        ring
      rw [hY0, hX0, atan2_zero_zero, add_zero]
    · have hA : sin (radians 90) * cos ((100 : ℝ) / 6371)
          + cos (radians 90) * sin ((100 : ℝ) / 6371) * cos 0
          = cos ((100 : ℝ) / 6371) := by
        rw [hr90, Real.sin_pi_div_two, Real.cos_pi_div_two]
        ring
      rw [hA, harc]
  rw [hmv]
  constructor
  · simp only [angle, to_rad, radians_degrees]
    rw [sub_self, Real.sin_zero, Real.cos_zero, zero_mul]
    rw [hr90, Real.cos_pi_div_two, Real.sin_pi_div_two]
    rw [show (0 : ℝ) * sin (π / 2 - 100 / 6371) - 1 * cos (π / 2 - 100 / 6371) * 1
        = -cos (π / 2 - 100 / 6371) by ring]
    rw [Real.cos_pi_div_two_sub]
    rw [atan2_zero_neg (neg_lt_zero.mpr hsδ)]
    exact normalize_angle_eq_self hπ.le (by linarith)
  · rw [sub_zero, abs_of_pos hπ]
    linarith [Real.pi_gt_three]
